import Mathlib

/-!
Verification development for the gramspec parser-generator repository.

The definitions below are a shallow embedding of the runtime in
`src/parser/src/parser.rs` (the `GramspecParser` expression-evaluation
engine), of the tree type in `src/parser/src/node.rs`, and of the grammar
model builder in `src/parser/src/gramspec.rs`.  Rust `usize` positions are
`Nat`, the input is a `List Char` with positions counting characters
(the grammar and the inputs considered are ASCII, where byte and
character offsets coincide), `Vec` is `List`, `HashMap` is an association
list (only keyed
lookup, replace-insert and remove are used by the source, so association
lists have the same observable behaviour), and `Result<_, Box<dyn Error>>`
is `Except Err _`.  Rust panics (out-of-bounds indexing, `unwrap` of
`None`) are modelled as distinguished `Except` errors.  The interpreter is
given explicit fuel because its recursion through named rules is not
structural; fuel is consumed at every call, and running out is the
distinguished `Err.outOfFuel` outcome.
-/

/-- ASCII model of the regex class `\s` used by the `regex` crate
(space, tab, newline, carriage return, vertical tab, form feed). -/
def isWsChar (c : Char) : Bool :=
  c = ' ' || c = '\t' || c = '\n' || c = '\r' || c = '\x0b' || c = '\x0c'

/-- The class `[^\S\r\n]`: whitespace that is neither `\r` nor `\n`. -/
def isInterWs (c : Char) : Bool :=
  isWsChar c && !(c = '\r') && !(c = '\n')

/-- Length of the maximal run of `[^\S\r\n]` characters at the head of a
list; `0` when the head is not such a character.  This is the length of
the match of the skip regex `^[^\S\r\n]+` (with `0` meaning no match). -/
def interWsRun : List Char → Nat
  | [] => 0
  | c :: rest => if isInterWs c then interWsRun rest + 1 else 0

/-- Length of the maximal run of `\s` characters at the head of a list. -/
def wsRun : List Char → Nat
  | [] => 0
  | c :: rest => if isWsChar c then wsRun rest + 1 else 0

/-- The quote character, written by code point to keep it out of literals. -/
def qChar : Char := Char.ofNat 39

/-- The backslash character. -/
def bsChar : Char := Char.ofNat 92

/-- The source pattern `^\'(?:\\.|[^\'\\])*\'` of the grammar rules
`string` and `regex`, assembled character by character. -/
def strLitPat : String :=
  String.mk (['^', bsChar, qChar, '(', '?', ':', bsChar, bsChar, '.', '|', '[',
    '^', bsChar, qChar, bsChar, bsChar, ']', ')', '*', bsChar, qChar])

/-- Identifier continuation class `[a-z0-9_]`. -/
def isIdentChar (c : Char) : Bool :=
  ('a' ≤ c && c ≤ 'z') || ('0' ≤ c && c ≤ '9') || c = '_'

/-- Length of the maximal run of characters satisfying `p`. -/
def runWhile (p : Char → Bool) : List Char → Nat
  | [] => 0
  | c :: rest => if p c then runWhile p rest + 1 else 0

/-- Match length of `(\r?\n)+` at the head of a list (0 = no match). -/
def crlfRun : List Char → Nat
  | '\r' :: '\n' :: rest => crlfRun rest + 2
  | '\n' :: rest => crlfRun rest + 1
  | _ => 0

/-- Scanner for the body of a single-quoted literal after the opening
quote: `(?:\\.|[^\'\\])*` followed by the closing quote.  Returns the
number of characters consumed including the closing quote.  At every
position the alternation is forced (a backslash only fits the first
alternative, a quote fits neither), so the greedy regex is equivalent to
this deterministic scan. -/
def strLitScan : List Char → Option Nat
  | [] => none
  | c :: rest =>
    if c = qChar then some 1
    else if c = bsChar then
      match rest with
      | [] => none
      | d :: rest' =>
        if d = '\n' then none
        else (strLitScan rest').map (fun k => k + 2)
    else (strLitScan rest).map (fun k => k + 1)

/-- Modelled from the spec: the regex engine is the external `regex`
crate, out of scope of the repository.  This function implements the
anchored patterns that the fixed grammar of `src/parser/src/parser.rs`
actually passes to it, returning `captures.get(0).end()` of the match at
the head of the given suffix, and `none` when there is no match (any
unknown pattern is treated as never matching). -/
def regexFind (pattern : String) (s : List Char) : Option Nat :=
  if pattern = "^[a-z][a-z0-9_]*" then
    match s with
    | c :: rest => if 'a' ≤ c && c ≤ 'z' then some (runWhile isIdentChar rest + 1) else none
    | [] => none
  else if pattern = "^(\\r?\\n)+" then
    if crlfRun s = 0 then none else some (crlfRun s)
  else if pattern = "^\\s+" then
    if wsRun s = 0 then none else some (wsRun s)
  else if pattern = "^#[^\\r\\n]*" then
    match s with
    | '#' :: rest => some (runWhile (fun c => !(c = '\r' || c = '\n')) rest + 1)
    | _ => none
  else if pattern = strLitPat then
    match s with
    | c :: rest => if c = qChar then (strLitScan rest).map (fun k => k + 1) else none
    | [] => none
  else if pattern = "^[^\\S\\r\\n]+" then
    if interWsRun s = 0 then none else some (interWsRun s)
  else none

/-- The `NodeType` enum of `src/parser/src/node.rs`. -/
inductive NodeType where
  | DelimitRepeatZero | Group | Identifier | Optional | NewLines
  | DelimitRepeatOne | MetaRuleDefinition | RepeatOne | DiscardRuleDefinition
  | DiscardValue | WhiteSpace | Comment | RepeatZero | And | RuleDefinition
  | String | ConfigDirective | File | Or | Regex | Expressions | MetaValue
  | _String | _Discard
deriving DecidableEq

/-- The `Node` struct of `src/parser/src/node.rs`: a node type, children,
an optional textual value, and a start and end byte position. -/
inductive Node where
  | mk : NodeType → List Node → Option String → Nat → Nat → Node

/-- Field `node_type`. -/
def Node.node_type : Node → NodeType
  | .mk t _ _ _ _ => t

/-- Field `children`. -/
def Node.children : Node → List Node
  | .mk _ cs _ _ _ => cs

/-- Field `value`. -/
def Node.value : Node → Option String
  | .mk _ _ v _ _ => v

/-- Field `start_position`. -/
def Node.start_position : Node → Nat
  | .mk _ _ _ s _ => s

/-- Field `end_position`. -/
def Node.end_position : Node → Nat
  | .mk _ _ _ _ e => e

theorem mem_of_getLast?_eq_some {α : Type} {l : List α} {a : α}
    (h : l.getLast? = some a) : a ∈ l := by
  induction l with
  | nil => simp [List.getLast?] at h
  | cons x xs ih =>
    cases xs with
    | nil => simp [List.getLast?] at h; simp [h]
    | cons y ys =>
      rw [List.getLast?_cons_cons] at h
      exact List.mem_cons_of_mem x (ih h)

mutual

/-- Embedding of `Node::get_end_pos` of `src/parser/src/node.rs`: the recursive end
position of the last child (`children.last()`), or the node's own stored
`end_position` when it has no children. -/
def getEndPos : Node → Nat
  | .mk _ cs _ _ e => lastEndAux e cs

/-- Computes `getEndPos` of the last element of a list, or the default for `[]`:
the `children.last()` selection written as structural recursion. -/
def lastEndAux (dflt : Nat) : List Node → Nat
  | [] => dflt
  | [c] => getEndPos c
  | _ :: c :: cs => lastEndAux dflt (c :: cs)

end

/-- The function `getEndPos` restated in the shape of the source text. -/
theorem getEndPos_eq (t : NodeType) (cs : List Node) (v : Option String) (s e : Nat) :
    getEndPos (.mk t cs v s e) =
      match cs.getLast? with
      | some c => getEndPos c
      | none => e := by
  show lastEndAux e cs = _
  induction cs with
  | nil => simp [lastEndAux]
  | cons c rest ih =>
    cases rest with
    | nil => simp [lastEndAux]
    | cons d rest' => rw [List.getLast?_cons_cons]; simpa [lastEndAux] using ih

/-- Modelled from the spec: `src/parser/src/lib.rs` declares
`pub mod expression` but the file `expression.rs` is absent from the
snapshot of this crate.  The variants are fixed by the combinator table of
spec section 3 together with every use in `src/parser/src/parser.rs`
(including the `Discard` and `Meta` branches of `eval`); the constructor
helper functions of the source are the plain constructors. -/
inductive Expression where
  | Rule (name : String)
  | RegexLiteral (pattern : String)
  | StringLiteral (s : String)
  | Keyword (k : String)
  | Or (a b : Expression)
  | And (a b : Expression)
  | DelimitRepeatOne (a d : Expression)
  | DelimitRepeatZero (a d : Expression)
  | Optional (a : Expression)
  | RepeatOne (a : Expression)
  | RepeatZero (a : Expression)
  | Discard (a : Expression)
  | Meta (a : Expression)

/-- Association-list lookup, the observable behaviour of `HashMap::get`. -/
def alistLookup {α β : Type} [DecidableEq α] : List (α × β) → α → Option β
  | [], _ => none
  | (k, v) :: rest, key => if k = key then some v else alistLookup rest key

/-- Association-list insert that replaces an existing binding, the
observable behaviour of `HashMap::insert`. -/
def alistInsert {α β : Type} [DecidableEq α] : List (α × β) → α → β → List (α × β)
  | [], key, v => [(key, v)]
  | (k, w) :: rest, key, v =>
    if k = key then (key, v) :: rest else (k, w) :: alistInsert rest key v

/-- Association-list removal, the observable behaviour of
`HashMap::remove`: every binding of the key is dropped (a `HashMap` holds
at most one binding per key, so this agrees with removing that one). -/
def alistRemove {α β : Type} [DecidableEq α] : List (α × β) → α → List (α × β)
  | [], _ => []
  | (k, w) :: rest, key =>
    if k = key then alistRemove rest key else (k, w) :: alistRemove rest key

/-- The memo table `HashMap<usize, HashMap<String, Box<Option<Vec<Node>>>>>`
of `GramspecParser`. -/
def Memos : Type := List (Nat × List (String × Option (List Node)))

/-- Embedding of `memos.get(&pos).and_then(|memo| memo.get(&rule_name))`. -/
def memoLookup (m : Memos) (pos : Nat) (name : String) : Option (Option (List Node)) :=
  match alistLookup m pos with
  | none => none
  | some inner => alistLookup inner name

/-- Embedding of `memos.entry(pos).or_insert_with(HashMap::new).insert(rule_name, v)`. -/
def memoSeed (m : Memos) (pos : Nat) (name : String) (v : Option (List Node)) : Memos :=
  match alistLookup m pos with
  | some inner => alistInsert m pos (alistInsert inner name v)
  | none => alistInsert m pos [(name, v)]

/-- Embedding of `if let Some(memo) = memos.get_mut(&pos) { memo.insert(rule_name, v) }`. -/
def memoInsertIfPresent (m : Memos) (pos : Nat) (name : String)
    (v : Option (List Node)) : Memos :=
  match alistLookup m pos with
  | some inner => alistInsert m pos (alistInsert inner name v)
  | none => m

/-- Embedding of `if let Some(memo) = memos.get_mut(&pos) { memo.remove(&rule_name) }`. -/
def memoRemoveIfPresent (m : Memos) (pos : Nat) (name : String) : Memos :=
  match alistLookup m pos with
  | some inner => alistInsert m pos (alistRemove inner name)
  | none => m

/-- The mutable state of `GramspecParser`: `content`, `position` and
`memos` (the `debug` flag only drives logging and is omitted). -/
structure PState where
  content : List Char
  position : Nat
  memos : Memos

theorem interWsRun_le_length (l : List Char) : interWsRun l ≤ l.length := by
  induction l with
  | nil => simp [interWsRun]
  | cons c rest ih =>
    simp only [interWsRun, List.length_cons]
    split <;> omega

theorem interWsRun_drop_self (l : List Char) :
    interWsRun (l.drop (interWsRun l)) = 0 := by
  induction l with
  | nil => simp [interWsRun]
  | cons c rest ih =>
    simp only [interWsRun]
    by_cases hc : isInterWs c
    · simpa [hc] using ih
    · simp [hc, interWsRun]

/-- The loop of `GramspecParser::expect_string`.  In the source, the loop
maintains `start_pos == self.position` at every loop head (both are the
entry position initially and both are advanced together on a whitespace
skip), so the loop state is the single position `p`.  Every continuing
iteration consumes at least one character of `content`, so the loop runs
at most `content.length + 1` times; the first argument is that iteration
bound, counted down structurally so that the kernel can evaluate the
function (the `0` case is unreachable from `expectString`).  Returns the
span of the match, or `none`, together with the final cursor position. -/
def expectStringGo (content s : List Char) : Nat → Nat → Option (Nat × Nat) × Nat
  | 0, p => (none, p)
  | gas + 1, p =>
    if s.isPrefixOf (content.drop p) then (some (p, p + s.length), p + s.length)
    else
      if interWsRun (content.drop p) = 0 then (none, p)
      else expectStringGo content s gas (p + interWsRun (content.drop p))

/-- Embedding of `GramspecParser::expect_string` (`src/parser/src/parser.rs`): on
success, one `_String` terminal node carrying the literal and spanning the
match; on failure the final cursor is wherever the skip loop stopped. -/
def expectString (s : String) (st : PState) : Option (List Node) × PState :=
  match expectStringGo st.content s.toList (st.content.length + 1) st.position with
  | (some (a, b), endP) =>
    (some [Node.mk ._String [] (some s) a b], { st with position := endP })
  | (none, endP) => (none, { st with position := endP })

/-- The loop of `GramspecParser::expect_regex`, with the same single-
position loop state and iteration bound as `expectStringGo`. -/
def expectRegexGo (content : List Char) (r : String) : Nat → Nat → Option (Nat × Nat) × Nat
  | 0, p => (none, p)
  | gas + 1, p =>
    match regexFind r (content.drop p) with
    | some e => (some (p, p + e), p + e)
    | none =>
      if interWsRun (content.drop p) = 0 then (none, p)
      else expectRegexGo content r gas (p + interWsRun (content.drop p))

/-- Embedding of `GramspecParser::expect_regex`: the node's value is the matched text
`captures.get(0).as_str()`. -/
def expectRegex (r : String) (st : PState) : Option (List Node) × PState :=
  match expectRegexGo st.content r (st.content.length + 1) st.position with
  | (some (a, b), endP) =>
    (some [Node.mk ._String [] (some (String.mk ((st.content.drop a).take (b - a)))) a b],
      { st with position := endP })
  | (none, endP) => (none, { st with position := endP })

/-- Error outcomes of the runtime: the two `Err` returns of the source
(`Unknown keyword`, `Unknown rule`), Rust panics on out-of-bounds
indexing, and exhaustion of the artificial fuel. -/
inductive Err where
  | unknownKeyword : String → Err
  | unknownRule : String → Err
  | indexOutOfBounds : Err
  | outOfFuel : Err

/-- Result type of the evaluation functions:
`Result<Option<Vec<Node>>, Box<dyn Error>>` together with the mutated
parser state. -/
def Res : Type := Except Err (Option (List Node) × PState)

/-- Embedding of `KEYWORDS = &[("ENDMARKER", "0")]` and `GramspecParser::expect_keyword`. -/
def expectKeyword (k : String) (st : PState) : Res :=
  if k = "ENDMARKER" then
    let v : String := "0"
    if v.toList.isPrefixOf (st.content.drop st.position) then
      .ok (some [Node.mk ._String [] (some k) st.position (st.position + v.length)],
        { st with position := st.position + v.length })
    else .ok (none, st)
  else .error (.unknownKeyword k)

/-- Embedding of `cached_result.as_ref().and_then(|nodes| nodes.iter().map(get_end_pos).max())`:
the maximum `getEndPos` over a list of nodes, `none` for the empty list. -/
def maxEnds : List Node → Option Nat
  | [] => none
  | n :: rest =>
    match maxEnds rest with
    | none => some (getEndPos n)
    | some m => some (max (getEndPos n) m)

/-- The end position restored by a memo hit in `circular_wrapper`:
the maximum node end of a cached success, `unwrap_or(pos)` otherwise. -/
def cachedEndPos (cached : Option (List Node)) (pos : Nat) : Nat :=
  match cached with
  | none => pos
  | some ns =>
    match maxEnds ns with
    | none => pos
    | some m => m

/-- Alternatives of `_delimit_repeat_zero`. -/
def delimitRepeatZeroExprs : List Expression :=
  [.And (.And (.Rule "alternative") (.StringLiteral ",")) (.Rule "repeat_zero")]

/-- Alternatives of `_group`. -/
def groupExprs : List Expression :=
  [.And (.And (.StringLiteral "(") (.Or (.Rule "alternative") (.Rule "or")))
    (.StringLiteral ")")]

/-- Alternatives of `_identifier`. -/
def identifierExprs : List Expression := [.RegexLiteral "^[a-z][a-z0-9_]*"]

/-- Alternatives of `_optional`. -/
def optionalExprs : List Expression := [.And (.Rule "alternative") (.StringLiteral "?")]

/-- Alternatives of `_new_lines`. -/
def newLinesExprs : List Expression := [.RegexLiteral "^(\\r?\\n)+"]

/-- Alternatives of `_delimit_repeat_one`. -/
def delimitRepeatOneExprs : List Expression :=
  [.And (.And (.Rule "alternative") (.StringLiteral ",")) (.Rule "repeat_one")]

/-- Alternatives of `_meta_rule_definition`. -/
def metaRuleDefinitionExprs : List Expression :=
  [.And (.And (.And (.StringLiteral "$") (.Rule "identifier")) (.StringLiteral ":"))
    (.Rule "expressions")]

/-- Alternatives of `_repeat_one`. -/
def repeatOneExprs : List Expression := [.And (.Rule "alternative") (.StringLiteral "+")]

/-- Alternatives of `_discarded_rule_definition`. -/
def discardedRuleDefinitionExprs : List Expression :=
  [.And (.And (.And (.StringLiteral "~") (.Rule "identifier")) (.StringLiteral ":"))
    (.Rule "expressions")]

/-- Alternatives of `_discarded_value`. -/
def discardedValueExprs : List Expression :=
  [.And (.StringLiteral "~")
    (.Or (.Or (.Rule "string") (.Rule "regex")) (.Rule "identifier"))]

/-- Alternatives of `_white_space`. -/
def whiteSpaceExprs : List Expression := [.RegexLiteral "^\\s+"]

/-- Alternatives of `_comment`. -/
def commentExprs : List Expression := [.RegexLiteral "^#[^\\r\\n]*"]

/-- Alternatives of `_repeat_zero`. -/
def repeatZeroExprs : List Expression := [.And (.Rule "alternative") (.StringLiteral "*")]

/-- Alternatives of `_and`. -/
def andExprs : List Expression := [.And (.Rule "alternative") (.Rule "alternative")]

/-- Alternatives of `_rule_definition`. -/
def ruleDefinitionExprs : List Expression :=
  [.And (.And (.Rule "identifier") (.StringLiteral ":")) (.Rule "expressions")]

/-- Alternatives of `_string`. -/
def stringExprs : List Expression := [.RegexLiteral strLitPat]

/-- Alternatives of `_config_directive`. -/
def configDirectiveExprs : List Expression :=
  [.And (.And (.And (.And (.StringLiteral "@") (.Rule "identifier")) (.StringLiteral ":"))
    (.Rule "string")) (.Rule "white_space")]

/-- Alternatives of `_file`. -/
def fileExprs : List Expression :=
  [.And (.And (.Optional (.Rule "white_space"))
      (.DelimitRepeatZero (.Rule "line") (.Rule "white_space")))
    (.Optional (.Rule "white_space"))]

/-- Alternatives of `_or`. -/
def orExprs : List Expression :=
  [.And (.Rule "alternative")
    (.RepeatOne (.And (.StringLiteral "|") (.Rule "alternative")))]

/-- Alternatives of `_regex`. -/
def regexExprs : List Expression := [.And (.StringLiteral "r") (.RegexLiteral strLitPat)]

/-- Alternatives of `_expressions`. -/
def expressionsExprs : List Expression :=
  [.And (.Optional (.And (.And (.Rule "new_lines") (.Rule "white_space")) (.StringLiteral "|")))
    (.DelimitRepeatOne (.Rule "alternative") (.StringLiteral "|"))]

/-- Alternatives of `_meta_value`. -/
def metaValueExprs : List Expression :=
  [.And (.StringLiteral "$")
    (.Or (.Or (.Rule "string") (.Rule "regex")) (.Rule "identifier"))]

/-- Alternatives of `_alternative` (returned unwrapped). -/
def alternativeExprs : List Expression :=
  [.Rule "value", .Rule "and", .Rule "group", .Rule "optional", .Rule "repeat_zero",
    .Rule "repeat_one", .Rule "delimit_repeat_zero", .Rule "delimit_repeat_one"]

/-- Alternatives of `_line` (returned unwrapped). -/
def lineExprs : List Expression :=
  [.And (.Rule "member") (.Optional (.Rule "comment")), .Rule "comment"]

/-- Alternatives of `_value` (returned unwrapped). -/
def valueExprs : List Expression :=
  [.Rule "discarded_value", .Rule "meta_value", .Rule "string", .Rule "regex",
    .Rule "identifier"]

/-- Alternatives of `_member` (returned unwrapped). -/
def memberExprs : List Expression :=
  [.Rule "config_directive", .Rule "rule_definition", .Rule "meta_rule_definition",
    .Rule "discarded_rule_definition"]

mutual

/-- Embedding of `GramspecParser::eval` of `src/parser/src/parser.rs`. -/
def eval (fuel : Nat) (e : Expression) (st : PState) : Res :=
  match fuel with
  | 0 => .error .outOfFuel
  | n + 1 =>
    match e with
    | .Rule r =>
      -- if let Some(nodes) = self.call_rule(rule, true)? { Ok(Some(nodes)) } else { Ok(None) }
      match callRule n r true st with
      | .error er => .error er
      | .ok (some ns, st1) => .ok (some ns, st1)
      | .ok (none, st1) => .ok (none, st1)
    | .RegexLiteral r => .ok (expectRegex r st)
    | .StringLiteral s => .ok (expectString s st)
    | .Keyword k => expectKeyword k st
    | .Or a b =>
      let startPos := st.position
      match eval n a st with
      | .error er => .error er
      | .ok (leftNodes, st1) =>
        let leftEnd := st1.position
        match eval n b { st1 with position := startPos } with
        | .error er => .error er
        | .ok (rightNodes, st2) =>
          let rightEnd := st2.position
          if leftEnd > rightEnd then .ok (leftNodes, { st2 with position := leftEnd })
          else if rightEnd > leftEnd then .ok (rightNodes, { st2 with position := rightEnd })
          else .ok (none, { st2 with position := startPos })
    | .And a b =>
      match eval n a st with
      | .error er => .error er
      | .ok (none, st1) => .ok (none, st1)
      | .ok (some leftNodes, st1) =>
        match eval n b st1 with
        | .error er => .error er
        | .ok (none, st2) => .ok (none, st2)
        | .ok (some rightNodes, st2) => .ok (some (leftNodes ++ rightNodes), st2)
    | .DelimitRepeatOne a d =>
      match eval n a st with
      | .error er => .error er
      | .ok (none, st1) => .ok (none, st1)
      | .ok (some ns, st1) =>
        match delimitLoop n a d ns st1 with
        | .error er => .error er
        | .ok (ns', st') => .ok (some ns', st')
    | .DelimitRepeatZero a d =>
      match eval n a st with
      | .error er => .error er
      | .ok (none, st1) => .ok (some [], st1)
      | .ok (some ns, st1) =>
        match delimitLoop n a d ns st1 with
        | .error er => .error er
        | .ok (ns', st') => .ok (some ns', st')
    | .RepeatOne a =>
      match eval n a st with
      | .error er => .error er
      | .ok (none, st1) => .ok (none, st1)
      | .ok (some ns, st1) =>
        match repeatLoop n a ns st1.position st1 with
        | .error er => .error er
        | .ok (ns', st') => .ok (some ns', st')
    | .RepeatZero a =>
      match eval n a st with
      | .error er => .error er
      | .ok (none, st1) => .ok (some [], st1)
      | .ok (some ns, st1) =>
        match repeatLoop n a ns st1.position st1 with
        | .error er => .error er
        | .ok (ns', st') => .ok (some ns', st')
    | .Optional a =>
      match eval n a st with
      | .error er => .error er
      | .ok (none, st1) => .ok (some [], st1)
      | .ok (some ns, st1) => .ok (some ns, st1)
    | .Discard a =>
      match eval n a st with
      | .error er => .error er
      | .ok (none, st1) => .ok (none, st1)
      | .ok (some ns, st1) =>
        -- let last_node = nodes[nodes.len() - 1]  (panics on an empty vector)
        match ns.getLast? with
        | none => .error .indexOutOfBounds
        | some lastNode =>
          .ok (some [Node.mk ._Discard [] none st1.position (getEndPos lastNode)], st1)
    | .Meta a =>
      match eval n a st with
      | .error er => .error er
      | .ok (none, st1) => .ok (none, st1)
      | .ok (some ns, st1) =>
        -- nodes.unwrap()[0].children  (panics on an empty vector)
        match ns with
        | [] => .error .indexOutOfBounds
        | n0 :: _ => .ok (some n0.children, st1)
termination_by structural fuel

/-- The `while let` loop shared by the `RepeatOne` and `RepeatZero`
branches of `eval`: iterate the sub-expression, concatenating nodes, and
break when an iteration fails (keeping its final state) or when a
successful iteration leaves the cursor at `lastPos`. -/
def repeatLoop (fuel : Nat) (e : Expression) (acc : List Node) (lastPos : Nat)
    (st : PState) : Except Err (List Node × PState) :=
  match fuel with
  | 0 => .error .outOfFuel
  | n + 1 =>
    match eval n e st with
    | .error er => .error er
    | .ok (none, st1) => .ok (acc, st1)
    | .ok (some ms, st1) =>
      let acc' := acc ++ ms
      if st1.position = lastPos then .ok (acc', st1)
      else repeatLoop n e acc' st1.position st1
termination_by structural fuel

/-- The `loop` shared by the `DelimitRepeatOne` and `DelimitRepeatZero`
branches of `eval`: parse `(delimiter, expression)` pairs, restoring the
cursor to the iteration start when either part fails, appending both node
lists on success, and breaking when the cursor did not advance. -/
def delimitLoop (fuel : Nat) (e d : Expression) (acc : List Node)
    (st : PState) : Except Err (List Node × PState) :=
  match fuel with
  | 0 => .error .outOfFuel
  | n + 1 =>
    let start := st.position
    match eval n d st with
    | .error er => .error er
    | .ok (none, st1) => .ok (acc, { st1 with position := start })
    | .ok (some dns, st1) =>
      match eval n e st1 with
      | .error er => .error er
      | .ok (none, st2) => .ok (acc, { st2 with position := start })
      | .ok (some ens, st2) =>
        let acc' := acc ++ dns ++ ens
        if st2.position ≤ start then .ok (acc', st2)
        else delimitLoop n e d acc' st2
termination_by structural fuel

/-- Embedding of `GramspecParser::get_longest_expression_match`. -/
def getLongestExpressionMatch (fuel : Nat) (exprs : List Expression) (st : PState) : Res :=
  match fuel with
  | 0 => .error .outOfFuel
  | n + 1 => getLongestGo n exprs st.position st.position none st
termination_by structural fuel

/-- The `for` loop of `get_longest_expression_match`, followed by the
final cursor update: position is reset to `startPos` after every
alternative, `(longestEnd, longestNodes)` are replaced whenever the new
end is strictly greater or nothing has been recorded yet, and at the end
the cursor goes to `longestEnd` on success or back to `startPos`. -/
def getLongestGo (fuel : Nat) (exprs : List Expression) (startPos longestEnd : Nat)
    (longestNodes : Option (List Node)) (st : PState) : Res :=
  match exprs with
  | [] =>
    if longestNodes.isNone then .ok (none, { st with position := startPos })
    else .ok (longestNodes, { st with position := longestEnd })
  | e :: rest =>
    match fuel with
    | 0 => .error .outOfFuel
    | n + 1 =>
      match eval n e st with
      | .error er => .error er
      | .ok (result, st1) =>
        let newEnd := st1.position
        let st2 := { st1 with position := startPos }
        if newEnd > longestEnd ∨ longestNodes.isNone = true then
          getLongestGo n rest startPos newEnd result st2
        else
          getLongestGo n rest startPos longestEnd longestNodes st2
termination_by structural fuel

/-- The common body of the rule functions `_delimit_repeat_zero` ..
`_meta_value`: record the start position, take the longest alternative
match, and wrap its nodes in a single freshly positioned node. -/
def runWrappedRule (fuel : Nat) (nt : NodeType) (exprs : List Expression) (st : PState) : Res :=
  match fuel with
  | 0 => .error .outOfFuel
  | n + 1 =>
    let startPos := st.position
    match getLongestExpressionMatch n exprs st with
    | .error er => .error er
    | .ok (none, st1) => .ok (none, st1)
    | .ok (some ms, st1) =>
      .ok (some [Node.mk nt ms none startPos st1.position], st1)
termination_by structural fuel

/-- The common body of `_alternative`, `_line`, `_value` and `_member`,
which return `get_longest_expression_match` unwrapped. -/
def runPlainRule (fuel : Nat) (exprs : List Expression) (st : PState) : Res :=
  match fuel with
  | 0 => .error .outOfFuel
  | n + 1 => getLongestExpressionMatch n exprs st
termination_by structural fuel

/-- Embedding of `GramspecParser::call_rule`: dispatch on the rule name; the eight
rules of the fixed grammar that are left-recursive go through
`circular_wrapper` when invoked with `protected = true`. -/
def callRule (fuel : Nat) (name : String) (prot : Bool) (st : PState) : Res :=
  match fuel with
  | 0 => .error .outOfFuel
  | n + 1 =>
    match name with
    | "delimit_repeat_zero" =>
      if prot then circularWrapper n name st
      else runWrappedRule n .DelimitRepeatZero delimitRepeatZeroExprs st
    | "group" => runWrappedRule n .Group groupExprs st
    | "identifier" => runWrappedRule n .Identifier identifierExprs st
    | "optional" =>
      if prot then circularWrapper n name st
      else runWrappedRule n .Optional optionalExprs st
    | "new_lines" => runWrappedRule n .NewLines newLinesExprs st
    | "delimit_repeat_one" =>
      if prot then circularWrapper n name st
      else runWrappedRule n .DelimitRepeatOne delimitRepeatOneExprs st
    | "meta_rule_definition" => runWrappedRule n .MetaRuleDefinition metaRuleDefinitionExprs st
    | "repeat_one" =>
      if prot then circularWrapper n name st
      else runWrappedRule n .RepeatOne repeatOneExprs st
    | "discarded_rule_definition" =>
      runWrappedRule n .DiscardRuleDefinition discardedRuleDefinitionExprs st
    | "discarded_value" => runWrappedRule n .DiscardValue discardedValueExprs st
    | "white_space" => runWrappedRule n .WhiteSpace whiteSpaceExprs st
    | "comment" => runWrappedRule n .Comment commentExprs st
    | "repeat_zero" =>
      if prot then circularWrapper n name st
      else runWrappedRule n .RepeatZero repeatZeroExprs st
    | "and" =>
      if prot then circularWrapper n name st
      else runWrappedRule n .And andExprs st
    | "rule_definition" => runWrappedRule n .RuleDefinition ruleDefinitionExprs st
    | "string" => runWrappedRule n .String stringExprs st
    | "config_directive" => runWrappedRule n .ConfigDirective configDirectiveExprs st
    | "file" => runWrappedRule n .File fileExprs st
    | "or" =>
      if prot then circularWrapper n name st
      else runWrappedRule n .Or orExprs st
    | "regex" => runWrappedRule n .Regex regexExprs st
    | "expressions" => runWrappedRule n .Expressions expressionsExprs st
    | "meta_value" => runWrappedRule n .MetaValue metaValueExprs st
    | "alternative" =>
      if prot then circularWrapper n name st
      else runPlainRule n alternativeExprs st
    | "line" => runPlainRule n lineExprs st
    | "value" => runPlainRule n valueExprs st
    | "member" => runPlainRule n memberExprs st
    | _ => .error (.unknownRule name)
termination_by structural fuel

/-- Embedding of `GramspecParser::circular_wrapper`: on a memo hit, restore the cached
result and cursor without evaluating anything; otherwise seed the memo
with a failure, run the seed-growth loop, evict the entry if the final
result is a failure, and set the cursor to the last successful end. -/
def circularWrapper (fuel : Nat) (name : String) (st : PState) : Res :=
  match memoLookup st.memos st.position name with
  | some cached => .ok (cached, { st with position := cachedEndPos cached st.position })
  | none =>
    match fuel with
    | 0 => .error .outOfFuel
    | n + 1 =>
      let st1 : PState := { st with memos := memoSeed st.memos st.position name none }
      match growthLoop n name st.position none st.position st1 with
      | .error er => .error er
      | .ok (lastResult, lastPos, st2) =>
        let st3 :=
          if lastResult.isNone then
            { st2 with memos := memoRemoveIfPresent st2.memos st.position name }
          else st2
        .ok (lastResult, { st3 with position := lastPos })
termination_by structural fuel

/-- The seed-growth `loop` of `circular_wrapper`: reset the cursor to the
entry position, evaluate the rule unprotected, stop when the new end does
not exceed the previous one, otherwise record the result in the memo and
iterate. -/
def growthLoop (fuel : Nat) (name : String) (pos : Nat) (lastResult : Option (List Node))
    (lastPos : Nat) (st : PState) : Except Err (Option (List Node) × Nat × PState) :=
  match fuel with
  | 0 => .error .outOfFuel
  | n + 1 =>
    match callRule n name false { st with position := pos } with
    | .error er => .error er
    | .ok (result, st1) =>
      let endPos := st1.position
      if endPos ≤ lastPos then .ok (lastResult, lastPos, st1)
      else
        let st2 : PState := { st1 with memos := memoInsertIfPresent st1.memos pos name result }
        growthLoop n name pos result endPos st2

termination_by structural fuel
end

/-- Embedding of `GramspecParser::parse`: reset the cursor to 0, replace the stored
content, evaluate `_file`, and return the first node of a success
(`nodes[0]`, a panic on an empty vector).  The memo table is carried over
from the previous state untouched. -/
def parse (fuel : Nat) (st : PState) (input : String) : Except Err (Option Node × PState) :=
  let st0 : PState := { content := input.toList, position := 0, memos := st.memos }
  match runWrappedRule fuel .File fileExprs st0 with
  | .error er => .error er
  | .ok (some ns, st1) =>
    match ns with
    | n0 :: _ => .ok (some n0, st1)
    | [] => .error .indexOutOfBounds
  | .ok (none, st1) => .ok (none, st1)

/-- The `GramSpec` struct of `src/parser/src/gramspec.rs` (the untouched
`config` field is omitted: `GramSpec::from` leaves it at its default). -/
structure GramSpecL where
  rules : List (String × List Node)
  meta_rules : List (String × List Node)
  discard_rules : List (String × List Node)

/-- Errors of the grammar-model builder: Rust panics from `unwrap()` of
`None` and from out-of-bounds indexing. -/
inductive FromErr where
  | panicUnwrap : FromErr

/-- Embedding of `node.iter_children().skip(1).find_map(...)` of
`GramSpec::rule_from_node`: the children of the first `Expressions`
child after the head. -/
def findExpressionsChildren : List Node → Option (List Node)
  | [] => none
  | n :: rest =>
    if n.node_type = .Expressions then some n.children
    else findExpressionsChildren rest

/-- Embedding of `GramSpec::rule_from_node` followed by the caller's `.unwrap()`: the
rule name is `children[0].value` (a panic when there is no child or no
value) and the alternatives are the children of the first `Expressions`
child after it, defaulting to the empty list. -/
def ruleFromNode (node : Node) : Except FromErr (String × List Node) :=
  match node.children with
  | [] => .error .panicUnwrap
  | c0 :: rest =>
    match c0.value with
    | none => .error .panicUnwrap
    | some nm => .ok (nm, (findExpressionsChildren rest).getD [])

/-- The loop of `GramSpec::from` over the entry node's children:
rule definitions, meta-rule definitions and discard-rule definitions are
inserted into their maps (`HashMap::insert`, which silently replaces an
existing binding of the same name); config directives and everything else
are skipped. -/
def gramspecFromGo : List Node → GramSpecL → Except FromErr GramSpecL
  | [], gs => .ok gs
  | child :: rest, gs =>
    match child.node_type with
    | .RuleDefinition =>
      match ruleFromNode child with
      | .error er => .error er
      | .ok (nm, alts) =>
        gramspecFromGo rest { gs with rules := alistInsert gs.rules nm alts }
    | .MetaRuleDefinition =>
      match child.value with
      | none => .error .panicUnwrap
      | some nm =>
        gramspecFromGo rest { gs with meta_rules := alistInsert gs.meta_rules nm child.children }
    | .DiscardRuleDefinition =>
      match child.value with
      | none => .error .panicUnwrap
      | some nm =>
        gramspecFromGo rest
          { gs with discard_rules := alistInsert gs.discard_rules nm child.children }
    | _ => gramspecFromGo rest gs

/-- Embedding of `GramSpec::from` of `src/parser/src/gramspec.rs`. -/
def gramspecFrom (entry : Node) : Except FromErr GramSpecL :=
  gramspecFromGo entry.children { rules := [], meta_rules := [], discard_rules := [] }

mutual

/-- Modelled from the spec: `end_of_subtree()` "returns the maximum `end`
across descendants" (spec section 4.1), the node's own stored end when it
has no children.  Stated recursively: the maximum over the children of
their own subtree ends. -/
def endOfSubtreeSpec : Node → Nat
  | .mk _ [] _ _ e => e
  | .mk _ (c :: cs) _ _ _ => maxSubtreeAux (c :: cs)

/-- Maximum of `endOfSubtreeSpec` over a list of nodes (`0` for `[]`,
which `endOfSubtreeSpec` never passes). -/
def maxSubtreeAux : List Node → Nat
  | [] => 0
  | [c] => endOfSubtreeSpec c
  | c :: d :: rest => max (endOfSubtreeSpec c) (maxSubtreeAux (d :: rest))

end

theorem alistLookup_insert_self {α β : Type} [DecidableEq α]
    (l : List (α × β)) (k : α) (v : β) :
    alistLookup (alistInsert l k v) k = some v := by
  induction l with
  | nil => simp [alistInsert, alistLookup]
  | cons kv rest ih =>
    obtain ⟨k', w⟩ := kv
    by_cases hk : k' = k
    · simp [alistInsert, alistLookup, hk]
    · simp [alistInsert, alistLookup, hk, ih]

theorem alistLookup_remove_self {α β : Type} [DecidableEq α]
    (l : List (α × β)) (k : α) :
    alistLookup (alistRemove l k) k = none := by
  induction l with
  | nil => simp [alistRemove, alistLookup]
  | cons kv rest ih =>
    obtain ⟨k', w⟩ := kv
    by_cases hk : k' = k
    · simp [alistRemove, hk, ih]
    · simp [alistRemove, alistLookup, hk, ih]

theorem memoLookup_removeIfPresent (m : Memos) (p : Nat) (nm : String) :
    memoLookup (memoRemoveIfPresent m p nm) p nm = none := by
  unfold memoRemoveIfPresent
  cases h : alistLookup m p with
  | none => unfold memoLookup; rw [h]
  | some inner =>
    unfold memoLookup
    rw [alistLookup_insert_self]
    exact alistLookup_remove_self inner nm

/-- C1.  The claim says a failing `eval` always leaves the cursor at its
entry value, and that `And(a,b)` restores the cursor to the pre-`a`
position when `a` succeeds and `b` then fails.  The code's `And` branch
returns `Ok(None)` without touching the cursor, so the failure leaves the
cursor at `a`'s end: on content `"ac"` from position 0,
`And(StringLiteral "a", StringLiteral "b")` fails with the cursor left at
1, not restored to 0. -/
theorem c1_and_failure_cursor_not_restored :
    eval 5 (.And (.StringLiteral "a") (.StringLiteral "b")) ⟨"ac".toList, 0, []⟩ =
      .ok (none, ⟨"ac".toList, 1, []⟩) ∧
    (⟨"ac".toList, 1, []⟩ : PState).position ≠ (⟨"ac".toList, 0, []⟩ : PState).position :=
  ⟨rfl, by decide⟩

/-- C2.  `eval(Or(a,b))` evaluates `a` from the start cursor and `b` from
the same start cursor (threading the memo state), returns the result of
whichever branch advanced the cursor further with the cursor set to that
branch's end, and on a tie — including two matches of the same nonzero
length — returns no match with the cursor restored to the start. -/
theorem eval_or_longest_match (n : Nat) (a b : Expression) (st : PState)
    (r₁ r₂ : Option (List Node)) (st₁ st₂ : PState)
    (h₁ : eval n a st = .ok (r₁, st₁))
    (h₂ : eval n b { st₁ with position := st.position } = .ok (r₂, st₂)) :
    (st₁.position > st₂.position →
      eval (n + 1) (.Or a b) st = .ok (r₁, { st₂ with position := st₁.position })) ∧
    (st₂.position > st₁.position →
      eval (n + 1) (.Or a b) st = .ok (r₂, { st₂ with position := st₂.position })) ∧
    (st₂.position = st₁.position →
      eval (n + 1) (.Or a b) st = .ok (none, { st₂ with position := st.position })) := by
  refine ⟨fun hgt => ?_, fun hgt => ?_, fun heq => ?_⟩ <;>
    simp only [eval, h₁, h₂]
  · rw [if_pos hgt]
  · rw [if_neg (by omega), if_pos hgt]
  · rw [if_neg (by omega), if_neg (by omega)]

/-- Witness for C2: on `"ab"`, `Or(StringLiteral "a", StringLiteral "ab")`
returns the longer right match with the cursor at 2, and
`Or(StringLiteral "a", StringLiteral "a")` (a nonzero-length tie) returns
no match with the cursor restored to 0. -/
theorem eval_or_longest_match_witness :
    eval 2 (.Or (.StringLiteral "a") (.StringLiteral "ab")) ⟨"ab".toList, 0, []⟩ =
      .ok (some [Node.mk ._String [] (some "ab") 0 2], ⟨"ab".toList, 2, []⟩) ∧
    eval 2 (.Or (.StringLiteral "a") (.StringLiteral "a")) ⟨"ab".toList, 0, []⟩ =
      .ok (none, ⟨"ab".toList, 0, []⟩) :=
  ⟨(eval_or_longest_match 1 (.StringLiteral "a") (.StringLiteral "ab")
      ⟨"ab".toList, 0, []⟩ (some [Node.mk ._String [] (some "a") 0 1])
      (some [Node.mk ._String [] (some "ab") 0 2])
      ⟨"ab".toList, 1, []⟩ ⟨"ab".toList, 2, []⟩ rfl rfl).2.1 (by decide),
   (eval_or_longest_match 1 (.StringLiteral "a") (.StringLiteral "a")
      ⟨"ab".toList, 0, []⟩ (some [Node.mk ._String [] (some "a") 0 1])
      (some [Node.mk ._String [] (some "a") 0 1])
      ⟨"ab".toList, 1, []⟩ ⟨"ab".toList, 1, []⟩ rfl rfl).2.2 rfl⟩

/-- C3 counterexample.  The claim says that when two alternatives tie for
the furthest end the rule returns "no match" with the cursor restored,
exactly as `Or` does.  On content `"a"`, the alternatives
`[StringLiteral "a", StringLiteral "a"]` both match one byte, yet
`get_longest_expression_match` keeps the first alternative's nodes and
sets the cursor to 1 — it does not fail. -/
theorem c3_dispatch_tie_counterexample :
    getLongestExpressionMatch 5 [.StringLiteral "a", .StringLiteral "a"]
      ⟨"a".toList, 0, []⟩ =
      .ok (some [Node.mk ._String [] (some "a") 0 1], ⟨"a".toList, 1, []⟩) ∧
    ∀ st' : PState,
      getLongestExpressionMatch 5 [.StringLiteral "a", .StringLiteral "a"]
        ⟨"a".toList, 0, []⟩ ≠ .ok (none, st') := by
  refine ⟨rfl, fun st' h => ?_⟩
  have h' : (Except.ok (some [Node.mk ._String [] (some "a") 0 1],
      (⟨"a".toList, 1, []⟩ : PState)) : Res) = .ok (none, st') := h
  simp at h'

/-- C3 amended.  Rule dispatch tries each alternative from the same start
cursor and keeps the one that advanced the cursor furthest, with the
cursor set to that end; but when two alternatives tie for the furthest
end, the first one evaluated wins (its nodes are returned) — unlike `Or`,
which fails on a tie. -/
theorem getLongestGo_cons (n : Nat) (e : Expression) (rest : List Expression)
    (startPos longestEnd : Nat) (ln : Option (List Node)) (st : PState)
    (r : Option (List Node)) (st1 : PState)
    (h : eval n e st = .ok (r, st1)) :
    getLongestGo (n + 1) (e :: rest) startPos longestEnd ln st =
      if st1.position > longestEnd ∨ ln.isNone = true then
        getLongestGo n rest startPos st1.position r { st1 with position := startPos }
      else
        getLongestGo n rest startPos longestEnd ln { st1 with position := startPos } := by
  rw [getLongestGo, h]

theorem getLongest_keeps_first_on_tie (k : Nat) (a b : Expression) (st : PState)
    (ns₁ ns₂ : List Node) (st₁ st₂ : PState)
    (h₁ : eval (k + 1) a st = .ok (some ns₁, st₁))
    (h₂ : eval k b { st₁ with position := st.position } = .ok (some ns₂, st₂)) :
    (st₂.position = st₁.position →
      getLongestExpressionMatch (k + 3) [a, b] st =
        .ok (some ns₁, { st₂ with position := st₁.position })) ∧
    (st₂.position > st₁.position →
      getLongestExpressionMatch (k + 3) [a, b] st =
        .ok (some ns₂, { st₂ with position := st₂.position })) ∧
    (st₁.position > st₂.position →
      getLongestExpressionMatch (k + 3) [a, b] st =
        .ok (some ns₁, { st₂ with position := st₁.position })) := by
  have base : getLongestExpressionMatch (k + 3) [a, b] st =
      getLongestGo (k + 1 + 1) [a, b] st.position st.position none st := rfl
  refine ⟨fun heq => ?_, fun hgt => ?_, fun hgt => ?_⟩ <;>
    rw [base, getLongestGo_cons (k + 1) a [b] _ _ _ _ _ _ h₁,
      if_pos (Or.inr (show (none : Option (List Node)).isNone = true from rfl)),
      getLongestGo_cons k b [] _ _ _ _ _ _ h₂]
  · rw [if_neg (by simp; omega)]
    simp [getLongestGo]
  · rw [if_pos (Or.inl hgt)]
    simp [getLongestGo]
  · rw [if_neg (by simp; omega)]
    simp [getLongestGo]

/-- Witness for the amended C3: on `"a"` with the tied alternatives
`[StringLiteral "a", StringLiteral "a"]`, dispatch returns the first
alternative's nodes with the cursor at 1. -/
theorem getLongest_keeps_first_on_tie_witness :
    getLongestExpressionMatch 4 [.StringLiteral "a", .StringLiteral "a"]
      ⟨"a".toList, 0, []⟩ =
      .ok (some [Node.mk ._String [] (some "a") 0 1], ⟨"a".toList, 1, []⟩) :=
  (getLongest_keeps_first_on_tie 1 (.StringLiteral "a") (.StringLiteral "a")
    ⟨"a".toList, 0, []⟩ [Node.mk ._String [] (some "a") 0 1]
    [Node.mk ._String [] (some "a") 0 1]
    ⟨"a".toList, 1, []⟩ ⟨"a".toList, 1, []⟩ rfl rfl).1 rfl


theorem circularWrapper_zero (name : String) (st : PState) :
    circularWrapper 0 name st =
      match memoLookup st.memos st.position name with
      | some cached => .ok (cached, { st with position := cachedEndPos cached st.position })
      | none => .error .outOfFuel := rfl

theorem circularWrapper_succ (n : Nat) (name : String) (st : PState) :
    circularWrapper (n + 1) name st =
      match memoLookup st.memos st.position name with
      | some cached => .ok (cached, { st with position := cachedEndPos cached st.position })
      | none =>
        match growthLoop n name st.position none st.position
            { st with memos := memoSeed st.memos st.position name none } with
        | .error er => .error er
        | .ok (lastResult, lastPos, st2) =>
          .ok (lastResult,
            { (if lastResult.isNone then
                { st2 with memos := memoRemoveIfPresent st2.memos st.position name }
              else st2) with position := lastPos }) := rfl

/-- C4.  The left-recursion wrapper's memo behaviour: (1) when the memo
already holds an entry for the current position and rule name, the
wrapper returns the cached nodes with the cursor set to the cached
result's end position, for every fuel value — including zero fuel, so no
rule evaluation happens; (2) when there was no memo entry (the seed-growth
path was taken) and the wrapper returns a failed final result, the
`(position, name)` memo entry is absent from the returned state — the
failure was evicted before returning. -/
theorem circularWrapper_memo_contract :
    (∀ (fuel : Nat) (name : String) (st : PState) (cached : Option (List Node)),
      memoLookup st.memos st.position name = some cached →
      circularWrapper fuel name st =
        .ok (cached, { st with position := cachedEndPos cached st.position })) ∧
    (∀ (fuel : Nat) (name : String) (st : PState) (r : Option (List Node)) (st' : PState),
      memoLookup st.memos st.position name = none →
      circularWrapper fuel name st = .ok (r, st') →
      r.isNone = true →
      memoLookup st'.memos st.position name = none) := by
  constructor
  · intro fuel name st cached h
    cases fuel with
    | zero => rw [circularWrapper_zero, h]
    | succ n => rw [circularWrapper_succ, h]
  · intro fuel name st r st' hmiss hrun hnone
    cases fuel with
    | zero =>
      rw [circularWrapper_zero, hmiss] at hrun
      exact absurd hrun (by simp)
    | succ n =>
      rw [circularWrapper_succ, hmiss] at hrun
      cases hgl : growthLoop n name st.position none st.position
          { st with memos := memoSeed st.memos st.position name none } with
      | error er =>
        rw [hgl] at hrun
        exact absurd hrun (by simp)
      | ok out =>
        obtain ⟨lastResult, lastPos, st2⟩ := out
        rw [hgl] at hrun
        simp only at hrun
        injection hrun with hp
        injection hp with hr hs
        subst hr
        subst hs
        rw [if_pos hnone]
        exact memoLookup_removeIfPresent _ _ _

/-- Witness for C4: a memo hit at position 0 for rule name `or` returns
the cached nodes with the cursor moved to their end even with zero fuel;
and after the growth path fails for rule `comment` on empty input, the
`(0, comment)` entry is gone from the final memo table. -/
theorem circularWrapper_memo_contract_witness :
    circularWrapper 0 "or"
      ⟨"ab".toList, 0, [(0, [("or", some [Node.mk ._String [] (some "x") 0 2])])]⟩ =
      .ok (some [Node.mk ._String [] (some "x") 0 2],
        ⟨"ab".toList, 2, [(0, [("or", some [Node.mk ._String [] (some "x") 0 2])])]⟩) ∧
    memoLookup [(0, [])] 0 "comment" = none :=
  ⟨circularWrapper_memo_contract.1 0 "or"
      ⟨"ab".toList, 0, [(0, [("or", some [Node.mk ._String [] (some "x") 0 2])])]⟩
      (some [Node.mk ._String [] (some "x") 0 2]) rfl,
   circularWrapper_memo_contract.2 10 "comment" ⟨[], 0, []⟩ none ⟨[], 0, [(0, [])]⟩
      rfl rfl rfl⟩

/-- Progress guard of the `RepeatOne`/`RepeatZero` loop: a successful
iteration that leaves the cursor at the previous position ends the loop
immediately (with the iteration's nodes still appended). -/
theorem repeatLoop_stops_without_progress (n : Nat) (e : Expression)
    (acc : List Node) (lastPos : Nat) (st : PState) (ms : List Node) (st₁ : PState)
    (h : eval n e st = .ok (some ms, st₁)) (hp : st₁.position = lastPos) :
    repeatLoop (n + 1) e acc lastPos st = .ok (acc ++ ms, st₁) := by
  rw [repeatLoop, h]
  simp [hp]

/-- Progress guard of the `DelimitRepeatOne`/`DelimitRepeatZero` loop: a
successful `(delimiter, expression)` iteration that does not advance the
cursor past the iteration start ends the loop immediately. -/
theorem delimitLoop_stops_without_progress (n : Nat) (e d : Expression)
    (acc dns ens : List Node) (st st₁ st₂ : PState)
    (h₁ : eval n d st = .ok (some dns, st₁))
    (h₂ : eval n e st₁ = .ok (some ens, st₂))
    (hle : st₂.position ≤ st.position) :
    delimitLoop (n + 1) e d acc st = .ok (acc ++ dns ++ ens, st₂) := by
  rw [delimitLoop, h₁]
  simp [h₂, hle]

/-- Guard of the seed-growth loop: an iteration whose end position does
not strictly exceed the previous recorded end stops the loop, returning
the previous result and end. -/
theorem growthLoop_stops_without_excess (n : Nat) (name : String) (pos : Nat)
    (lastResult : Option (List Node)) (lastPos : Nat) (st : PState)
    (res : Option (List Node)) (st₁ : PState)
    (h : callRule n name false { st with position := pos } = .ok (res, st₁))
    (hle : st₁.position ≤ lastPos) :
    growthLoop (n + 1) name pos lastResult lastPos st = .ok (lastResult, lastPos, st₁) := by
  rw [growthLoop, h]
  simp [hle]

/-- Monotonicity of the seed-growth loop: the loop only continues when the
new end position strictly exceeds the previous one, recording the new
result in the memo. -/
theorem growthLoop_continues_only_with_excess (n : Nat) (name : String) (pos : Nat)
    (lastResult : Option (List Node)) (lastPos : Nat) (st : PState)
    (res : Option (List Node)) (st₁ : PState)
    (h : callRule n name false { st with position := pos } = .ok (res, st₁))
    (hgt : st₁.position > lastPos) :
    growthLoop (n + 1) name pos lastResult lastPos st =
      growthLoop n name pos res st₁.position
        { st₁ with memos := memoInsertIfPresent st₁.memos pos name res } := by
  rw [growthLoop, h]
  simp [Nat.not_le_of_lt hgt]

/-- C6.  The claim says `expect_string` either succeeds past the consumed
text or fails with the cursor reset to the original entry position,
before any inter-token whitespace skip.  In the code the skip loop
advances `start_pos` itself, and the final failure reset
`self.position = start_pos` therefore lands after the skipped whitespace:
expecting `"y"` on content `" x"` from position 0 fails with the cursor
left at 1, not 0.  `expect_regex` has the identical skid: expecting the
identifier pattern on `" !"` from 0 fails with the cursor at 1. -/
theorem c6_expect_failure_cursor_after_skip :
    (expectString "y" ⟨" x".toList, 0, []⟩).1 = none ∧
    (expectString "y" ⟨" x".toList, 0, []⟩).2.position = 1 ∧
    (expectString "y" ⟨" x".toList, 0, []⟩).2.position ≠
      (⟨" x".toList, 0, []⟩ : PState).position ∧
    (expectRegex "^[a-z][a-z0-9_]*" ⟨" !".toList, 0, []⟩).1 = none ∧
    (expectRegex "^[a-z][a-z0-9_]*" ⟨" !".toList, 0, []⟩).2.position = 1 ∧
    (expectRegex "^[a-z][a-z0-9_]*" ⟨" !".toList, 0, []⟩).2.position ≠
      (⟨" !".toList, 0, []⟩ : PState).position :=
  ⟨rfl, rfl, by decide, rfl, rfl, by decide⟩

/-- First alternative body of the duplicated rule, for the C7 evaluation. -/
def dupAlt1 : Node := Node.mk ._String [] (some "x") 4 7

/-- Second alternative body of the duplicated rule, for the C7 evaluation. -/
def dupAlt2 : Node := Node.mk ._String [] (some "y") 12 15

/-- A front-end tree in which the rule name `a` is defined twice, as the
grammar front-end produces for a grammar source defining `a` on two
lines. -/
def dupRuleEntry : Node :=
  Node.mk .File
    [Node.mk .RuleDefinition
      [Node.mk .Identifier [] (some "a") 0 1,
       Node.mk .Expressions [dupAlt1] none 2 7] none 0 7,
     Node.mk .RuleDefinition
      [Node.mk .Identifier [] (some "a") 8 9,
       Node.mk .Expressions [dupAlt2] none 10 15] none 8 15]
    none 0 15

/-- C7.  The claim says a grammar defining the same rule name twice fails
at build time with a `DuplicateRule` error.  `GramSpec::from` performs no
duplicate check of any kind (and no `DuplicateRule` error exists anywhere
in the repository; `src/src/gramspec_parser/parser.rs` line 50 carries
`TODO: Check for rule duplicates`): building from a tree that defines
rule `a` twice succeeds, silently keeping only the second definition. -/
theorem c7_duplicate_rule_silently_replaced :
    gramspecFrom dupRuleEntry =
      .ok { rules := [("a", [dupAlt2])], meta_rules := [], discard_rules := [] } := rfl

/-- C8 counterexample.  The claim says the discard marker spans the same
range as `a`'s match.  Evaluating `Discard(StringLiteral "ab")` on `"ab"`
from position 0 matches the region 0..2, but the produced marker is
`(start 2, end 2)`: its start is the cursor after the match, not the
start of the matched region. -/
theorem c8_discard_marker_counterexample :
    eval 3 (.Discard (.StringLiteral "ab")) ⟨"ab".toList, 0, []⟩ =
      .ok (some [Node.mk ._Discard [] none 2 2], ⟨"ab".toList, 2, []⟩) ∧
    (Node.mk ._Discard [] none 2 2).start_position ≠ 0 :=
  ⟨rfl, by decide⟩

/-- C8 amended.  On success of `a`, `eval(Discard(a))` returns exactly one
discard-marker node with no children and no text, whose `start_position`
is the cursor position after `a`'s match and whose `end_position` is the
subtree end (`get_end_pos`) of the last node `a` produced. -/
theorem eval_discard_marker (n : Nat) (a : Expression) (st st' : PState)
    (ns : List Node) (lastN : Node)
    (h₁ : eval n a st = .ok (some ns, st'))
    (h₂ : ns.getLast? = some lastN) :
    eval (n + 1) (.Discard a) st =
      .ok (some [Node.mk ._Discard [] none st'.position (getEndPos lastN)], st') := by
  simp only [eval, h₁, h₂]

/-- Witness for the amended C8: `Discard(StringLiteral "ab")` on `"ab"`
yields the zero-width marker at position 2. -/
theorem eval_discard_marker_witness :
    eval 2 (.Discard (.StringLiteral "ab")) ⟨"ab".toList, 0, []⟩ =
      .ok (some [Node.mk ._Discard [] none 2 2], ⟨"ab".toList, 2, []⟩) :=
  eval_discard_marker 1 (.StringLiteral "ab") ⟨"ab".toList, 0, []⟩ ⟨"ab".toList, 2, []⟩
    [Node.mk ._String [] (some "ab") 0 2] (Node.mk ._String [] (some "ab") 0 2) rfl rfl

/-- A node whose first child's subtree ends at 5 but whose last child's
subtree ends at 3, for the C9 evaluation. -/
def outOfOrderNode : Node :=
  Node.mk .File [Node.mk ._String [] none 0 5, Node.mk ._String [] none 0 3] none 0 9

/-- C9 counterexample.  The claim says `get_end_pos` returns the maximum
end position across all descendants.  The code follows the chain of last
children instead: on a node with children ending at 5 and 3 (in that
order) it returns 3 while the maximum across descendants is 5. -/
theorem c9_get_end_pos_counterexample :
    getEndPos outOfOrderNode = 3 ∧
    endOfSubtreeSpec outOfOrderNode = 5 ∧
    getEndPos outOfOrderNode ≠ endOfSubtreeSpec outOfOrderNode :=
  ⟨rfl, rfl, by decide⟩

/-- The source-order discipline the runtime actually maintains: in every
subtree, each child's subtree end is at most the last sibling's subtree
end. -/
inductive WellOrdered : Node → Prop where
  | intro : ∀ (t : NodeType) (cs : List Node) (v : Option String) (s e : Nat),
      (∀ c ∈ cs, WellOrdered c) →
      (∀ c ∈ cs, ∀ l, cs.getLast? = some l → endOfSubtreeSpec c ≤ endOfSubtreeSpec l) →
      WellOrdered (Node.mk t cs v s e)

theorem getLast?_cons_exists {α : Type} : ∀ (c : α) (xs : List α),
    ∃ l, (c :: xs).getLast? = some l := by
  intro c xs
  induction xs generalizing c with
  | nil => exact ⟨c, rfl⟩
  | cons d rest ih =>
    obtain ⟨l, hl⟩ := ih d
    exact ⟨l, by rw [List.getLast?_cons_cons]; exact hl⟩

theorem maxSubtreeAux_le {B : Nat} : ∀ (c : Node) (xs : List Node),
    (∀ x ∈ c :: xs, endOfSubtreeSpec x ≤ B) → maxSubtreeAux (c :: xs) ≤ B := by
  intro c xs
  induction xs generalizing c with
  | nil => intro h; simpa [maxSubtreeAux] using h c (by simp)
  | cons d rest ih =>
    intro h
    simp only [maxSubtreeAux]
    refine max_le (h c (by simp)) (ih d ?_)
    intro x hx
    exact h x (by simp at hx ⊢; tauto)

theorem le_maxSubtreeAux : ∀ (c : Node) (xs : List Node) (x : Node),
    x ∈ c :: xs → endOfSubtreeSpec x ≤ maxSubtreeAux (c :: xs) := by
  intro c xs
  induction xs generalizing c with
  | nil => intro x hx; simp at hx; simp [maxSubtreeAux, hx]
  | cons d rest ih =>
    intro x hx
    simp only [maxSubtreeAux]
    rcases List.mem_cons.mp hx with rfl | hx'
    · exact le_max_left _ _
    · exact le_trans (ih d x hx') (le_max_right _ _)

/-- C9 amended.  `get_end_pos` returns the node's own stored end position
when it has no children, and otherwise follows the chain of last
children; when children are well-ordered (each child's subtree end is at
most its last sibling's, hereditarily — the source-order case), this
equals the maximum subtree end across descendants. -/
theorem getEndPos_spec :
    (∀ (t : NodeType) (v : Option String) (s e : Nat),
      getEndPos (.mk t [] v s e) = e) ∧
    (∀ n : Node, WellOrdered n → getEndPos n = endOfSubtreeSpec n) := by
  constructor
  · intro t v s e; rfl
  · intro n h
    induction h with
    | intro t cs v s e hwo hord ih =>
      cases cs with
      | nil => rfl
      | cons c rest =>
        obtain ⟨l, hl⟩ := getLast?_cons_exists c rest
        have hlmem : l ∈ c :: rest := mem_of_getLast?_eq_some hl
        have h1 : getEndPos (.mk t (c :: rest) v s e) = getEndPos l := by
          rw [getEndPos_eq]; simp [hl]
        have h2 : endOfSubtreeSpec (.mk t (c :: rest) v s e) =
            maxSubtreeAux (c :: rest) := rfl
        have h3 : maxSubtreeAux (c :: rest) = endOfSubtreeSpec l :=
          le_antisymm
            (maxSubtreeAux_le c rest (fun x hx => hord x hx l hl))
            (le_maxSubtreeAux c rest l hlmem)
        rw [h1, h2, h3]
        exact ih l hlmem

/-- Witness for the amended C9: on a node with children whose subtree
ends are 3 then 5 in source order, `get_end_pos` returns the maximum 5,
as computed by the spec's end-of-subtree function. -/
theorem getEndPos_spec_witness :
    getEndPos (Node.mk .File
        [Node.mk ._String [] none 0 3, Node.mk ._String [] none 0 5] none 0 9) =
      endOfSubtreeSpec (Node.mk .File
        [Node.mk ._String [] none 0 3, Node.mk ._String [] none 0 5] none 0 9) :=
  getEndPos_spec.2 _ (by
    refine .intro _ _ _ _ _ ?_ ?_
    · intro c hc
      rcases List.mem_cons.mp hc with rfl | hc'
      · exact .intro _ _ _ _ _ (by simp) (by simp)
      · rcases List.mem_cons.mp hc' with rfl | hc''
        · exact .intro _ _ _ _ _ (by simp) (by simp)
        · simp at hc''
    · intro c hc l hl
      have hl' : l = Node.mk ._String [] none 0 5 := (Option.some.inj hl).symm
      subst hl'
      rcases List.mem_cons.mp hc with rfl | hc'
      · simp [endOfSubtreeSpec]
      · rcases List.mem_cons.mp hc' with rfl | hc''
        · simp [endOfSubtreeSpec]
        · simp at hc'')

/-- C10.  `parse` resets the cursor to 0 and replaces the stored content
— the previous content and cursor are irrelevant to the result — but the
memo table is carried into the new run untouched, and any
`(offset, rule_name)` entry it holds is honoured by the left-recursion
wrapper when a protected rule is invoked at that offset during the new
parse: the wrapper returns the stale entry's nodes instead of
re-evaluating the rule. -/
theorem parse_keeps_memos :
    (∀ (fuel : Nat) (c : List Char) (p : Nat) (m : Memos) (input : String),
      parse fuel ⟨c, p, m⟩ input = parse fuel ⟨[], 0, m⟩ input) ∧
    (∀ (fuel : Nat) (name : String) (input : List Char) (p : Nat) (m : Memos)
        (cached : Option (List Node)),
      memoLookup m p name = some cached →
      circularWrapper fuel name ⟨input, p, m⟩ =
        .ok (cached, ⟨input, cachedEndPos cached p, m⟩)) := by
  constructor
  · intro fuel c p m input; rfl
  · intro fuel name input p m cached h
    cases fuel with
    | zero => rw [circularWrapper_zero]; rw [show memoLookup (⟨input, p, m⟩ : PState).memos
        (⟨input, p, m⟩ : PState).position name = some cached from h]
    | succ n => rw [circularWrapper_succ]; rw [show memoLookup (⟨input, p, m⟩ : PState).memos
        (⟨input, p, m⟩ : PState).position name = some cached from h]

/-- Witness for C10: with a stale memo entry at offset 2 for rule
`alternative` (as a previous parse leaves behind), the wrapper invoked at
offset 2 of the new input returns the stale node with the cursor moved to
its recorded end, without evaluating anything (fuel 0); and the
parse-entry frame equation holds at concrete prior state and input. -/
theorem parse_keeps_memos_witness :
    circularWrapper 0 "alternative"
      ⟨"a:b".toList, 2, [(2, [("alternative", some [Node.mk ._String [] (some "Z") 2 3])])]⟩ =
      .ok (some [Node.mk ._String [] (some "Z") 2 3],
        ⟨"a:b".toList, 3, [(2, [("alternative", some [Node.mk ._String [] (some "Z") 2 3])])]⟩) ∧
    parse 7 ⟨"old".toList, 9, [(2, [("alternative", some [Node.mk ._String [] (some "Z") 2 3])])]⟩
        "a:b" =
      parse 7 ⟨[], 0, [(2, [("alternative", some [Node.mk ._String [] (some "Z") 2 3])])]⟩
        "a:b" :=
  ⟨parse_keeps_memos.2 0 "alternative" "a:b".toList 2
      [(2, [("alternative", some [Node.mk ._String [] (some "Z") 2 3])])]
      (some [Node.mk ._String [] (some "Z") 2 3]) rfl,
   parse_keeps_memos.1 7 "old".toList 9
      [(2, [("alternative", some [Node.mk ._String [] (some "Z") 2 3])])] "a:b"⟩
